import Mathlib

/-!
Verification development for `scripts/audit_config.py`, a documentation
consistency auditor: it scans a directory tree for C# `...Options` classes
carrying a `SectionName` constant, and reports every section name that does
not occur as a substring of a fixed documentation file.

The embedding below is a shallow translation of the Python source:

* the two compiled regular expressions (`CLASS_PATTERN`, `SECTION_PATTERN`)
  become character-level matchers over `List Char`, reproducing `re.search`
  leftmost-match semantics with greedy quantifiers for these two concrete
  patterns (`\w` and `\s` are modelled at the ASCII level, which is the
  fragment exercised by the tool's C# inputs);
* `os.walk` plus per-file `open`/`read` becomes a list of `SrcFile` records
  carrying the file name, path and the outcome of opening and reading it
  (outer `Except` = exception raised by `open` itself, which the source does
  NOT catch; inner `Except` = exception raised while reading/decoding inside
  the `try` block, which it does catch);
* the Python `dict` becomes an association list with insertion-order
  preserving, value-overwriting insert (`dictInsert`);
* console printing becomes an accumulated list of printed strings, and the
  report file write becomes an `Option (String × String)` (file name,
  content) in the run's result.
-/

/-- ASCII fragment of Python's `\s` character class. -/
def isPySpace (c : Char) : Bool :=
  c == ' ' || c == '\t' || c == '\n' || c == '\r' || c == '\x0b' || c == '\x0c'

/-- ASCII fragment of Python's `\w` character class: letters, digits, underscore. -/
def isWordChar (c : Char) : Bool :=
  c.isAlphanum || c == '_'

def publicChars : List Char := "public".data

def sealedChars : List Char := "sealed".data

def classChars : List Char := "class".data

def constChars : List Char := "const".data

def stringChars : List Char := "string".data

def sectionNameChars : List Char := "SectionName".data

def eqChars : List Char := "=".data

def quoteChar : Char := '"'

def optionsChars : List Char := "Options".data

/-- Match a literal at the head of the input, returning the remaining input. -/
def matchLit (lit s : List Char) : Option (List Char) :=
  if lit.isPrefixOf s then some (s.drop lit.length) else none

/-- Match `\s+` (one or more whitespace characters, greedily).  In both source
patterns every `\s+` is followed by a non-whitespace character, so maximal
munch is exactly the backtracking semantics. -/
def matchSp1 (s : List Char) : Option (List Char) :=
  match s with
  | [] => none
  | c :: rest => if isPySpace c then some (rest.dropWhile isPySpace) else none

/-- Greedy-backtracking choice of the split point for `(\w+Options)` applied
to the maximal word-character run `W`: the largest `j ≥ 1` such that the
literal `Options` follows position `j` inside `W`. -/
def findLastJ (W : List Char) : Option Nat :=
  (List.range W.length).reverse.find? (fun j => decide (1 ≤ j) && optionsChars.isPrefixOf (W.drop j))

/-- Match the tail `class\s+(\w+Options)` of `CLASS_PATTERN`, returning the
capture of group 1. -/
def classTail (s : List Char) : Option (List Char) :=
  match matchLit classChars s with
  | none => none
  | some s1 =>
    match matchSp1 s1 with
    | none => none
    | some s2 =>
      let W := s2.takeWhile isWordChar
      match findLastJ W with
      | none => none
      | some j => some (W.take (j + 7))

/-- Attempt `CLASS_PATTERN = public\s+(?:sealed\s+)?class\s+(\w+Options)` at
the head of the input, returning the capture of group 1.  The optional
`sealed\s+` group is greedy: the branch that consumes it is tried first. -/
def classAt (s : List Char) : Option (List Char) :=
  match matchLit publicChars s with
  | none => none
  | some s1 =>
    match matchSp1 s1 with
    | none => none
    | some s2 =>
      match Option.bind (Option.bind (matchLit sealedChars s2) matchSp1) classTail with
      | some cap => some cap
      | none => classTail s2

/-- Attempt `SECTION_PATTERN = public\s+const\s+string\s+SectionName\s*=\s*"([^"]+)"`
at the head of the input, returning the capture of group 1. -/
def sectionAt (s : List Char) : Option (List Char) :=
  Option.bind (matchLit publicChars s) fun s1 =>
  Option.bind (matchSp1 s1) fun s2 =>
  Option.bind (matchLit constChars s2) fun s3 =>
  Option.bind (matchSp1 s3) fun s4 =>
  Option.bind (matchLit stringChars s4) fun s5 =>
  Option.bind (matchSp1 s5) fun s6 =>
  Option.bind (matchLit sectionNameChars s6) fun s7 =>
  Option.bind (matchLit eqChars (s7.dropWhile isPySpace)) fun s9 =>
  Option.bind (matchLit [quoteChar] (s9.dropWhile isPySpace)) fun s11 =>
  let cap := s11.takeWhile (fun c => !(c == quoteChar))
  Option.bind (matchLit [quoteChar] (s11.dropWhile (fun c => !(c == quoteChar)))) fun _ =>
  if cap.isEmpty then none else some cap

/-- Leftmost-match search: Python's `re.search` tries each start position from
the left and returns the first position at which the pattern matches. -/
def searchFirst (m : List Char → Option (List Char)) : List Char → Option (List Char)
  | [] => m []
  | c :: rest =>
    match m (c :: rest) with
    | some r => some r
    | none => searchFirst m rest

/-- Embedding of `CLASS_PATTERN.search(content)`, returning group 1. -/
def CLASS_PATTERN_search (content : List Char) : Option (List Char) :=
  searchFirst classAt content

/-- Embedding of `SECTION_PATTERN.search(content)`, returning group 1. -/
def SECTION_PATTERN_search (content : List Char) : Option (List Char) :=
  searchFirst sectionAt content

/-- Module-level constant `ROOT_DIR = "."` of the source: the default scan
root, resolved relative to the process working directory. -/
def ROOT_DIR : String := "."

/-- Module-level constant `DOC_FILE = "SYSTEMCONFIGURATION.md"` of the source:
the documentation file name, resolved relative to the process working
directory. -/
def DOC_FILE : String := "SYSTEMCONFIGURATION.md"

/-- Fixed report file name the source passes to `open(..., "w")`, resolved
relative to the process working directory. -/
def REPORT_FILE : String := "config_audit_report.md"

deriving instance DecidableEq for Except

/-- Value stored in the definitions mapping: the source's dict with keys
"class" and "file". -/
structure DefInfo where
  cls : String
  file : String
deriving DecidableEq, Repr

/-- One candidate file of the walked tree, in `os.walk` enumeration order.
`openResult` models the two stages of file access in the source: the outer
`Except` is an exception raised by `open(filepath, ...)` itself (which the
source does not guard), the inner `Except` is an exception raised by
`f.read()` inside the `try` block (which it catches). -/
structure SrcFile where
  filename : String
  filepath : String
  openResult : Except String (Except String String)
deriving DecidableEq, Repr

/-- Python `str.endswith`, used for the `.cs` extension filter. -/
def pyEndsWith (s suffixStr : String) : Bool :=
  suffixStr.data.isSuffixOf s.data

/-- Contiguous-sublist test: does the needle occur at some position of the
haystack? -/
def isSubListOf (needle : List Char) : List Char → Bool
  | [] => needle.isEmpty
  | c :: rest => needle.isPrefixOf (c :: rest) || isSubListOf needle rest

/-- Python `needle in hay` on strings: exact, case-sensitive substring test. -/
def pyInStr (needle hay : String) : Bool :=
  isSubListOf needle.data hay.data

def csExt : String := ".cs"

/-- Both pattern searches applied to one file's text; a definition is produced
only when both match, pairing the first section capture with the first class
capture. -/
def fileDefn (content : String) : Option (String × String) :=
  match CLASS_PATTERN_search content.data, SECTION_PATTERN_search content.data with
  | some clsCap, some secCap => some (String.mk secCap, String.mk clsCap)
  | _, _ => none

/-- Python `dict` assignment `definitions[section] = value`: if the key is
present its value is replaced in place (insertion order kept), otherwise the
pair is appended. -/
def dictInsert (k : String) (v : DefInfo) : List (String × DefInfo) → List (String × DefInfo)
  | [] => [(k, v)]
  | p :: rest => if p.1 = k then (k, v) :: rest else p :: dictInsert k v rest

def skippingLit : String := "Skipping "

def colonLit : String := ": "

/-- Diagnostic `f"Skipping {filepath}: {e}"` printed on a caught read error. -/
def skippingMsg (path e : String) : String :=
  skippingLit ++ path ++ colonLit ++ e

/-- One iteration of the scanner's inner loop on accumulated (definitions,
printed diagnostics).  An `open` failure escapes as `Except.error`; a read
failure is caught, printed and skipped; otherwise the file contributes a
definition exactly when both patterns match. -/
def scanStep (acc : List (String × DefInfo) × List String) (f : SrcFile) :
    Except String (List (String × DefInfo) × List String) :=
  if pyEndsWith f.filename csExt then
    match f.openResult with
    | Except.error e => Except.error e
    | Except.ok (Except.error e) => Except.ok (acc.1, acc.2 ++ [skippingMsg f.filepath e])
    | Except.ok (Except.ok content) =>
      match fileDefn content with
      | some sc => Except.ok (dictInsert sc.1 ⟨sc.2, f.filepath⟩ acc.1, acc.2)
      | none => Except.ok acc
  else Except.ok acc

/-- Traversal over the remaining files, threading the accumulator. -/
def findDefsFrom (acc : List (String × DefInfo) × List String) :
    List SrcFile → Except String (List (String × DefInfo) × List String)
  | [] => Except.ok acc
  | f :: rest =>
    match scanStep acc f with
    | Except.error e => Except.error e
    | Except.ok acc2 => findDefsFrom acc2 rest

/-- Embedding of `find_config_definitions`: the walked tree is given as the
list of its files in enumeration order; the result is the definitions mapping
together with the diagnostics printed along the way, or the exception that
escaped the function. -/
def find_config_definitions (files : List SrcFile) :
    Except String (List (String × DefInfo) × List String) :=
  findDefsFrom ([], []) files

/-- Value returned by `get_documented_sections`: the source returns the empty
Python list `[]` when the documentation file does not exist, and the file's
full text otherwise.  The two cases flow into different semantics of the
`in` operator, so the embedding keeps them apart. -/
inductive DocContent where
  | absent : DocContent
  | text (content : String) : DocContent
deriving DecidableEq

/-- Embedding of `get_documented_sections`: the argument is the documentation
file's contents when it exists, `none` when it does not. -/
def get_documented_sections (docFileContents : Option String) : DocContent :=
  match docFileContents with
  | none => DocContent.absent
  | some c => DocContent.text c

/-- The test `section not in doc_content` of `main`.  When the documentation
file was absent, `doc_content` is the empty list and Python list membership
is vacuously false, so the test is true; otherwise it is the negated
substring test on strings. -/
def notInDoc (sec : String) (d : DocContent) : Bool :=
  match d with
  | DocContent.absent => true
  | DocContent.text c => !(pyInStr sec c)

def starStar : String := "**"

def classOpenLit : String := "** (Class: `"

def inLit : String := "` in `"

def closeLit : String := "`)"

/-- Formatted missing-item line body built in `main`'s loop. -/
def missingItem (sec : String) (info : DefInfo) : String :=
  starStar ++ sec ++ classOpenLit ++ info.cls ++ inLit ++ info.file ++ closeLit

/-- The loop of `main` that collects `missing_items` in mapping iteration
order. -/
def missingOf (defs : List (String × DefInfo)) (d : DocContent) : List String :=
  match defs with
  | [] => []
  | p :: rest =>
    if notInDoc p.1 d then missingItem p.1 p.2 :: missingOf rest d
    else missingOf rest d

/-- The sub-list of mapping entries failing the containment check (the gaps,
before formatting). -/
def gapPairs (defs : List (String × DefInfo)) (d : DocContent) : List (String × DefInfo) :=
  defs.filter (fun p => notInDoc p.1 d)

def nlStr : String := "\n"

def twoNl : String := "\n\n"

def hdrLit : String := "### Missing Configuration Sections in "

def introLit : String := "The following configuration sections were found in the code but are missing from documentation:"

def bulletLit : String := "- [ ] "

/-- Concatenation of a list of strings, in order. -/
def strConcat : List String → String
  | [] => ""
  | s :: rest => s ++ strConcat rest

/-- Content of the report file as the source writes it: header write, intro
write, then one checklist write per missing item. -/
def reportContent (items : List String) : String :=
  (hdrLit ++ DOC_FILE ++ twoNl) ++ (introLit ++ twoNl) ++
    strConcat (items.map (fun it => bulletLit ++ it ++ nlStr))

def scanningMsg : String := "Scanning codebase for configuration options..."

def readingLit : String := "Reading "

def dotsLit : String := "..."

def readingMsg : String := readingLit ++ DOC_FILE ++ dotsLit

def missingHdrMsg : String := "\nMissing Configuration Documentation Found:"

def successMsg : String := "\nAll configuration sections appear to be documented."

/-- Observable outcome of one run of `main`: the collected gap list, the
report file write (name and content) if one happened, and the console lines
printed in order. -/
structure MainResult where
  missing_items : List String
  written : Option (String × String)
  console : List String
deriving DecidableEq, Repr

/-- Embedding of the source's `main` (Lean reserves the name `main` for entry
points, hence `mainRun`): scan, load documentation, collect gaps, then either
write the report and print the gap list, or print the success message.  An
exception escaping `find_config_definitions` (an unguarded `open` failure)
aborts the whole run. -/
def mainRun (files : List SrcFile) (docFileContents : Option String) : Except String MainResult :=
  match find_config_definitions files with
  | Except.error e => Except.error e
  | Except.ok dl =>
    if (missingOf dl.1 (get_documented_sections docFileContents)).isEmpty then
      Except.ok ⟨missingOf dl.1 (get_documented_sections docFileContents), none,
        scanningMsg :: dl.2 ++ [readingMsg, successMsg]⟩
    else
      Except.ok ⟨missingOf dl.1 (get_documented_sections docFileContents),
        some (REPORT_FILE,
          reportContent (missingOf dl.1 (get_documented_sections docFileContents))),
        scanningMsg :: dl.2 ++ [readingMsg, missingHdrMsg,
          String.intercalate nlStr (missingOf dl.1 (get_documented_sections docFileContents))]⟩

/-- State of the report file after a run, given its prior state: a write
overwrites whatever was there; no write leaves it unchanged. -/
def reportAfter (prior : Option String) (r : MainResult) : Option String :=
  match r.written with
  | some pc => some pc.2
  | none => prior

/-- The definition a single file would insert into the mapping, if any. -/
def contribOf (f : SrcFile) : Option (String × DefInfo) :=
  if pyEndsWith f.filename csExt then
    match f.openResult with
    | Except.ok (Except.ok content) =>
      match fileDefn content with
      | some sc => some (sc.1, ⟨sc.2, f.filepath⟩)
      | none => none
    | _ => none
  else none

/-- Folding `dictInsert` over a contribution list, from an accumulator. -/
def buildDictFrom (acc : List (String × DefInfo)) : List (String × DefInfo) → List (String × DefInfo)
  | [] => acc
  | c :: cs => buildDictFrom (dictInsert c.1 c.2 acc) cs

/-- Lookup in the definitions mapping. -/
def lookupD (m : List (String × DefInfo)) (k : String) : Option DefInfo :=
  match m.find? (fun p => decide (p.1 = k)) with
  | some p => some p.2
  | none => none

/-- Number of entries of the mapping carrying a given key. -/
def countKey (m : List (String × DefInfo)) (k : String) : Nat :=
  (m.filter (fun p => decide (p.1 = k))).length

/-- Report format as the specification words it: a list of lines (header
naming the documentation file, blank, fixed sentence, blank, one checklist
line per gap), each terminated by a newline. -/
def specLines (items : List String) : List String :=
  (hdrLit ++ DOC_FILE) :: "" :: introLit :: "" :: items.map (fun it => bulletLit ++ it)

/-- Report content as the specification words it. -/
def specReport (items : List String) : String :=
  strConcat ((specLines items).map (fun l => l ++ nlStr))

def demoAudioContent : String :=
  "public sealed class AudioOptions \x7b public const string SectionName = \"Audio\"; \x7d"

def demoSoundContent : String :=
  "public class SoundOptions \x7b public const string SectionName = \"Audio\"; \x7d"

def demoVideoContent : String :=
  "public class VideoOptions \x7b public const string SectionName = \"Video\"; \x7d"

def demoClassOnlyContent : String :=
  "public class FooOptions \x7b \x7d"

def audioFile : SrcFile :=
  ⟨"AudioOptions.cs", "./Audio/AudioOptions.cs", Except.ok (Except.ok demoAudioContent)⟩

def soundFile : SrcFile :=
  ⟨"SoundOptions.cs", "./Sound/SoundOptions.cs", Except.ok (Except.ok demoSoundContent)⟩

def videoFile : SrcFile :=
  ⟨"VideoOptions.cs", "./Video/VideoOptions.cs", Except.ok (Except.ok demoVideoContent)⟩

def classOnlyFile : SrcFile :=
  ⟨"FooOptions.cs", "./Foo/FooOptions.cs", Except.ok (Except.ok demoClassOnlyContent)⟩

def permDeniedMsg : String := "[Errno 13] Permission denied: './Locked/LockedOptions.cs'"

def badOpenFile : SrcFile :=
  ⟨"LockedOptions.cs", "./Locked/LockedOptions.cs", Except.error permDeniedMsg⟩

def decodeErrMsg : String := "'utf-8' codec can't decode byte 0xff in position 0: invalid start byte"

def badReadFile : SrcFile :=
  ⟨"BinaryOptions.cs", "./Bin/BinaryOptions.cs", Except.ok (Except.error decodeErrMsg)⟩

def notCsFile : SrcFile :=
  ⟨"README.md", "./README.md", Except.ok (Except.ok demoAudioContent)⟩

/-- Keys of the definitions mapping, in insertion order. -/
def keysOf (m : List (String × DefInfo)) : List String :=
  m.map Prod.fst

def audioDefInfo : DefInfo := ⟨"AudioOptions", "./Audio/AudioOptions.cs"⟩

def videoDefInfo : DefInfo := ⟨"VideoOptions", "./Video/VideoOptions.cs"⟩

def soundDefInfo : DefInfo := ⟨"SoundOptions", "./Sound/SoundOptions.cs"⟩

def audioSection : String := "Audio"

def videoSection : String := "Video"

def demoDefs : List (String × DefInfo) := [(audioSection, audioDefInfo), (videoSection, videoDefInfo)]

def demoDocAudi : String := "Audi"

def demoTree : List SrcFile := [audioFile, videoFile, classOnlyFile, notCsFile]

def audioClassChars : List Char := "AudioOptions".data

def audioSecChars : List Char := "Audio".data

def demoPrior : String := "stale earlier report"

/-- Result of `mainRun [audioFile] none` (one definition, no documentation
file): one gap, report written. -/
def demoGapResult : MainResult :=
  ⟨[missingItem audioSection audioDefInfo],
   some (REPORT_FILE, reportContent [missingItem audioSection audioDefInfo]),
   [scanningMsg, readingMsg, missingHdrMsg,
    String.intercalate nlStr [missingItem audioSection audioDefInfo]]⟩

/-- Result of `mainRun [notCsFile] (some demoDocAudi)` (no candidate source
file at all): no gaps, no report, success message. -/
def demoEmptyResult : MainResult :=
  ⟨[], none, [scanningMsg, readingMsg, successMsg]⟩

/-- Mapping produced by scanning `[audioFile, soundFile, videoFile]`: the two
files declaring section "Audio" collapse to one entry whose value comes from
the later file (`soundFile`). -/
def demoDupDefs : List (String × DefInfo) :=
  [(audioSection, soundDefInfo), (videoSection, videoDefInfo)]

/-!  Lemmas about the Python-dict embedding. -/

theorem lookupD_nil (k : String) : lookupD [] k = none := rfl

theorem lookupD_cons (p : String × DefInfo) (m : List (String × DefInfo)) (k : String) :
    lookupD (p :: m) k = if p.1 = k then some p.2 else lookupD m k := by
  by_cases h : p.1 = k <;> simp [lookupD, List.find?_cons, h]

theorem lookupD_dictInsert (k k' : String) (v : DefInfo) (m : List (String × DefInfo)) :
    lookupD (dictInsert k v m) k' = if k' = k then some v else lookupD m k' := by
  induction m with
  | nil =>
    by_cases h : k' = k
    · subst h; simp [dictInsert, lookupD_cons]
    · simp [dictInsert, lookupD_cons, lookupD_nil, h, Ne.symm h]
  | cons p rest ih =>
    by_cases hp : p.1 = k
    · rw [dictInsert, if_pos hp]
      by_cases h : k' = k
      · subst h; simp [lookupD_cons]
      · simp [lookupD_cons, h, Ne.symm h, hp]
    · rw [dictInsert, if_neg hp]
      by_cases h : k' = k
      · subst h
        simp [lookupD_cons, hp, ih]
      · simp [lookupD_cons, h, ih]

theorem mem_dictInsert (q : String × DefInfo) (k : String) (v : DefInfo)
    (m : List (String × DefInfo)) : q ∈ dictInsert k v m → q = (k, v) ∨ q ∈ m := by
  induction m with
  | nil => intro h; simp [dictInsert] at h; exact Or.inl h
  | cons p rest ih =>
    intro h
    rw [dictInsert] at h
    by_cases hp : p.1 = k
    · rw [if_pos hp] at h
      rcases List.mem_cons.mp h with h1 | h2
      · exact Or.inl h1
      · exact Or.inr (List.mem_cons_of_mem _ h2)
    · rw [if_neg hp] at h
      rcases List.mem_cons.mp h with h1 | h2
      · exact Or.inr (h1 ▸ List.mem_cons_self _ _)
      · rcases ih h2 with h3 | h4
        · exact Or.inl h3
        · exact Or.inr (List.mem_cons_of_mem _ h4)

theorem mem_keysOf_dictInsert (x k : String) (v : DefInfo) (m : List (String × DefInfo)) :
    x ∈ keysOf (dictInsert k v m) ↔ x = k ∨ x ∈ keysOf m := by
  induction m with
  | nil => simp [dictInsert, keysOf]
  | cons p rest ih =>
    by_cases hp : p.1 = k
    · rw [dictInsert, if_pos hp]
      simp [keysOf, ← hp]
    · rw [dictInsert, if_neg hp]
      simp [keysOf] at ih ⊢
      tauto

theorem keysOf_nodup_dictInsert (k : String) (v : DefInfo) (m : List (String × DefInfo))
    (h : (keysOf m).Nodup) : (keysOf (dictInsert k v m)).Nodup := by
  induction m with
  | nil => simp [dictInsert, keysOf]
  | cons p rest ih =>
    rcases List.nodup_cons.mp (show (p.1 :: keysOf rest).Nodup from h) with ⟨hnot, hrest⟩
    by_cases hp : p.1 = k
    · rw [dictInsert, if_pos hp]
      refine List.nodup_cons.mpr ⟨?_, hrest⟩
      exact hp ▸ hnot
    · rw [dictInsert, if_neg hp]
      refine List.nodup_cons.mpr ⟨?_, ih hrest⟩
      intro hmem
      rcases (mem_keysOf_dictInsert p.1 k v rest).mp hmem with h1 | h2
      · exact hp h1
      · exact hnot h2

theorem countKey_eq_zero : ∀ (m : List (String × DefInfo)) (k : String),
    (∀ q ∈ m, q.1 ≠ k) → countKey m k = 0
  | [], _, _ => rfl
  | p :: rest, k, h => by
    have hp : p.1 ≠ k := h p (List.mem_cons_self p rest)
    have htail := countKey_eq_zero rest k (fun q hq => h q (List.mem_cons_of_mem _ hq))
    simpa [countKey, List.filter_cons, hp] using htail

theorem countKey_le_one : ∀ (m : List (String × DefInfo)) (k : String),
    (keysOf m).Nodup → countKey m k ≤ 1
  | [], _, _ => by simp [countKey]
  | p :: rest, k, h => by
    rcases List.nodup_cons.mp (show (p.1 :: keysOf rest).Nodup from h) with ⟨hnot, hrest⟩
    by_cases hp : p.1 = k
    · have hz : countKey rest k = 0 := by
        refine countKey_eq_zero rest k ?_
        intro q hq hqk
        refine hnot ?_
        rw [hp, ← hqk]
        exact List.mem_map_of_mem Prod.fst hq
      simp [countKey, List.filter_cons, hp]
      simpa [countKey] using Nat.le_of_eq hz
    · have := countKey_le_one rest k (by simpa [keysOf] using hrest)
      simpa [countKey, List.filter_cons, hp] using this

theorem countKey_pos : ∀ (m : List (String × DefInfo)) (k : String) (v : DefInfo),
    lookupD m k = some v → 1 ≤ countKey m k
  | [], k, v, h => by simp [lookupD] at h
  | p :: rest, k, v, h => by
    by_cases hp : p.1 = k
    · simp [countKey, List.filter_cons, hp]
    · rw [lookupD_cons, if_neg hp] at h
      have := countKey_pos rest k v h
      simpa [countKey, List.filter_cons, hp] using this



/-!  Lemmas relating the scanner to the per-file contribution list. -/

theorem buildDictFrom_append (l1 l2 : List (String × DefInfo)) :
    ∀ acc, buildDictFrom acc (l1 ++ l2) = buildDictFrom (buildDictFrom acc l1) l2 := by
  induction l1 with
  | nil => intro acc; rfl
  | cons c cs ih => intro acc; rw [List.cons_append, buildDictFrom, buildDictFrom, ih]

theorem lookupD_buildDictFrom_no_key (k : String) :
    ∀ (cs : List (String × DefInfo)) (acc : List (String × DefInfo)),
      (∀ c ∈ cs, c.1 ≠ k) → lookupD (buildDictFrom acc cs) k = lookupD acc k
  | [], _, _ => rfl
  | c :: cs, acc, h => by
    rw [buildDictFrom]
    rw [lookupD_buildDictFrom_no_key k cs _ (fun q hq => h q (List.mem_cons_of_mem _ hq))]
    rw [lookupD_dictInsert]
    rw [if_neg (fun he => h c (List.mem_cons_self _ _) he.symm)]

theorem keysOf_nodup_buildDictFrom :
    ∀ (cs : List (String × DefInfo)) (acc : List (String × DefInfo)),
      (keysOf acc).Nodup → (keysOf (buildDictFrom acc cs)).Nodup
  | [], _, h => h
  | c :: cs, acc, h =>
    keysOf_nodup_buildDictFrom cs _ (keysOf_nodup_dictInsert c.1 c.2 acc h)

theorem mem_buildDictFrom :
    ∀ (cs : List (String × DefInfo)) (acc : List (String × DefInfo)) (q : String × DefInfo),
      q ∈ buildDictFrom acc cs → q ∈ acc ∨ q ∈ cs
  | [], _, _, h => Or.inl h
  | c :: cs, acc, q, h => by
    rcases mem_buildDictFrom cs _ q h with h1 | h2
    · rcases mem_dictInsert q c.1 c.2 acc h1 with h3 | h4
      · right
        rw [h3, Prod.mk.eta]
        exact List.mem_cons_self _ _
      · exact Or.inl h4
    · exact Or.inr (List.mem_cons_of_mem _ h2)

theorem lookupD_buildDictFrom_uniform (k : String) (ckv : String × DefInfo) (hk : ckv.1 = k) :
    ∀ (cs : List (String × DefInfo)) (acc : List (String × DefInfo)),
      ckv ∈ cs → (∀ c ∈ cs, c.1 = k → c = ckv) →
      lookupD (buildDictFrom acc cs) k = some ckv.2
  | [], _, hmem, _ => absurd hmem (List.not_mem_nil _)
  | c :: cs, acc, hmem, huni => by
    by_cases hin : ckv ∈ cs
    · exact lookupD_buildDictFrom_uniform k ckv hk cs _ hin
        (fun q hq => huni q (List.mem_cons_of_mem _ hq))
    · have hc : c = ckv := by
        rcases List.mem_cons.mp hmem with h1 | h2
        · exact h1.symm
        · exact absurd h2 hin
      rw [buildDictFrom]
      have hnone : ∀ q ∈ cs, q.1 ≠ k := by
        intro q hq hqk
        exact hin ((huni q (List.mem_cons_of_mem _ hq) hqk) ▸ hq)
      rw [lookupD_buildDictFrom_no_key k cs _ hnone]
      rw [hc, lookupD_dictInsert, hk, if_pos rfl]

theorem scanStep_read_skip (m : List (String × DefInfo)) (lg : List String) (f : SrcFile)
    (e : String) (hcs : pyEndsWith f.filename csExt = true)
    (ho : f.openResult = Except.ok (Except.error e)) :
    scanStep (m, lg) f = Except.ok (m, lg ++ [skippingMsg f.filepath e]) := by
  simp [scanStep, hcs, ho]

theorem scanStep_open_fail (acc : List (String × DefInfo) × List String) (f : SrcFile)
    (e : String) (hcs : pyEndsWith f.filename csExt = true)
    (ho : f.openResult = Except.error e) :
    scanStep acc f = Except.error e := by
  simp [scanStep, hcs, ho]

theorem scanStep_contrib (acc acc' : List (String × DefInfo) × List String) (f : SrcFile)
    (h : scanStep acc f = Except.ok acc') :
    acc'.1 = (contribOf f).elim acc.1 (fun c => dictInsert c.1 c.2 acc.1) := by
  obtain ⟨m, lg⟩ := acc
  by_cases hcs : pyEndsWith f.filename csExt = true
  · cases ho : f.openResult with
    | error e =>
      rw [scanStep_open_fail (m, lg) f e hcs ho] at h
      cases h
    | ok inner =>
      cases inner with
      | error e =>
        rw [scanStep_read_skip m lg f e hcs ho] at h
        injection h with h'
        rw [← h']
        simp [contribOf, hcs, ho]
      | ok content =>
        cases hd : fileDefn content with
        | none =>
          have hstep : scanStep (m, lg) f = Except.ok (m, lg) := by
            simp [scanStep, hcs, ho, hd]
          rw [hstep] at h
          injection h with h'
          rw [← h']
          simp [contribOf, hcs, ho, hd]
        | some sc =>
          have hstep : scanStep (m, lg) f =
              Except.ok (dictInsert sc.1 ⟨sc.2, f.filepath⟩ m, lg) := by
            simp [scanStep, hcs, ho, hd]
          rw [hstep] at h
          injection h with h'
          rw [← h']
          simp [contribOf, hcs, ho, hd]
  · have hstep : scanStep (m, lg) f = Except.ok (m, lg) := by
      simp [scanStep, hcs]
    rw [hstep] at h
    injection h with h'
    rw [← h']
    simp [contribOf, hcs]

theorem findDefsFrom_defs : ∀ (files : List SrcFile)
    (acc : List (String × DefInfo) × List String) (defs : List (String × DefInfo))
    (lg : List String), findDefsFrom acc files = Except.ok (defs, lg) →
    defs = buildDictFrom acc.1 (files.filterMap contribOf)
  | [], acc, defs, lg, h => by
    rw [findDefsFrom] at h
    injection h with h'
    rw [h']
    rfl
  | f :: rest, acc, defs, lg, h => by
    rw [findDefsFrom] at h
    cases hs : scanStep acc f with
    | error e => rw [hs] at h; cases h
    | ok acc2 =>
      rw [hs] at h
      have hrec := findDefsFrom_defs rest acc2 defs lg h
      have hc := scanStep_contrib acc acc2 f hs
      cases hco : contribOf f with
      | none =>
        rw [List.filterMap_cons_none hco]
        rw [hco] at hc
        simp only [Option.elim] at hc
        rw [hrec, hc]
      | some c =>
        rw [List.filterMap_cons_some hco]
        rw [hco] at hc
        simp only [Option.elim] at hc
        rw [hrec, hc, buildDictFrom]

theorem find_config_definitions_defs (files : List SrcFile) (defs : List (String × DefInfo))
    (lg : List String) (h : find_config_definitions files = Except.ok (defs, lg)) :
    defs = buildDictFrom [] (files.filterMap contribOf) :=
  findDefsFrom_defs files ([], []) defs lg h

theorem find_config_definitions_nodup (files : List SrcFile) (defs : List (String × DefInfo))
    (lg : List String) (h : find_config_definitions files = Except.ok (defs, lg)) :
    (keysOf defs).Nodup := by
  rw [find_config_definitions_defs files defs lg h]
  exact keysOf_nodup_buildDictFrom _ _ List.nodup_nil

theorem findDefsFrom_no_cs : ∀ (files : List SrcFile)
    (acc : List (String × DefInfo) × List String),
    (∀ g ∈ files, pyEndsWith g.filename csExt = false) →
    findDefsFrom acc files = Except.ok acc
  | [], _, _ => rfl
  | f :: rest, acc, h => by
    have hf : pyEndsWith f.filename csExt = false := h f (List.mem_cons_self _ _)
    rw [findDefsFrom]
    rw [show scanStep acc f = Except.ok acc by simp [scanStep, hf]]
    exact findDefsFrom_no_cs rest acc (fun g hg => h g (List.mem_cons_of_mem _ hg))

/-!  Lemmas about the shapes of the two regex captures. -/

theorem sectionAt_some (s cap : List Char) (h : sectionAt s = some cap) :
    cap ≠ [] ∧ ∀ c ∈ cap, c ≠ quoteChar := by
  unfold sectionAt at h
  simp only [Option.bind_eq_some] at h
  obtain ⟨s1, h1, s2, h2, s3, h3, s4, h4, s5, h5, s6, h6, s7, h7, s9, h9, s11, h11, u, hu,
    hfin⟩ := h
  split at hfin
  · exact absurd hfin (by simp)
  · rename_i hne
    injection hfin with hcap
    constructor
    · intro hnil
      exact hne (by rw [hcap, hnil]; rfl)
    · intro c hc
      rw [← hcap] at hc
      have hpc := List.mem_takeWhile_imp hc
      intro hceq
      rw [hceq] at hpc
      simp at hpc

theorem classTail_some (s cap : List Char) (h : classTail s = some cap) :
    (∃ pre, pre ≠ [] ∧ cap = pre ++ optionsChars) ∧ ∀ c ∈ cap, isWordChar c = true := by
  unfold classTail at h
  cases h1 : matchLit classChars s with
  | none => simp only [h1] at h; exact Option.noConfusion h
  | some s1 =>
    simp only [h1] at h
    cases h2 : matchSp1 s1 with
    | none => simp only [h2] at h; exact Option.noConfusion h
    | some s2 =>
      simp only [h2] at h
      cases h3 : findLastJ (s2.takeWhile isWordChar) with
      | none => simp only [h3] at h; exact Option.noConfusion h
      | some j =>
        simp only [h3] at h
        injection h with hcap
        have hpred := List.find?_some (by unfold findLastJ at h3; exact h3)
        rw [Bool.and_eq_true, decide_eq_true_eq] at hpred
        obtain ⟨h1j, hopt⟩ := hpred
        rcases List.isPrefixOf_iff_prefix.mp hopt with ⟨t, ht⟩
        have hlen7 : optionsChars.length = 7 := rfl
        have hjlt : j < (s2.takeWhile isWordChar).length := by
          by_contra hge
          push_neg at hge
          rw [List.drop_eq_nil_of_le hge] at ht
          rcases List.append_eq_nil.mp ht with ⟨ho, _⟩
          exact (by decide : optionsChars ≠ []) ho
        have hsplit : (s2.takeWhile isWordChar).take (j + 7) =
            (s2.takeWhile isWordChar).take j ++ optionsChars := by
          rw [List.take_add]
          congr 1
          rw [← ht, ← hlen7]
          exact List.take_left _ _
        have hpre : (s2.takeWhile isWordChar).take j ≠ [] := by
          apply List.ne_nil_of_length_pos
          rw [List.length_take]
          exact lt_min_iff.mpr ⟨by omega, by omega⟩
        constructor
        · exact ⟨(s2.takeWhile isWordChar).take j, hpre, by rw [← hcap, hsplit]⟩
        · intro c hc
          rw [← hcap] at hc
          exact List.mem_takeWhile_imp (List.take_subset _ _ hc)

theorem classAt_some (s cap : List Char) (h : classAt s = some cap) :
    (∃ pre, pre ≠ [] ∧ cap = pre ++ optionsChars) ∧ ∀ c ∈ cap, isWordChar c = true := by
  unfold classAt at h
  cases h1 : matchLit publicChars s with
  | none => simp only [h1] at h; exact Option.noConfusion h
  | some s1 =>
    simp only [h1] at h
    cases h2 : matchSp1 s1 with
    | none => simp only [h2] at h; exact Option.noConfusion h
    | some s2 =>
      simp only [h2] at h
      cases h3 : Option.bind (Option.bind (matchLit sealedChars s2) matchSp1) classTail with
      | some cap2 =>
        simp only [h3] at h
        injection h with h'
        rcases Option.bind_eq_some.mp h3 with ⟨s3, _, hct⟩
        exact h' ▸ classTail_some _ _ hct
      | none =>
        simp only [h3] at h
        exact classTail_some _ _ h

theorem searchFirst_some (m : List Char → Option (List Char)) :
    ∀ (s r : List Char), searchFirst m s = some r → ∃ t, m t = some r
  | [], _, h => ⟨[], h⟩
  | c :: rest, r, h => by
    rw [searchFirst] at h
    cases hm : m (c :: rest) with
    | some x =>
      rw [hm] at h
      injection h with h'
      exact ⟨c :: rest, h' ▸ hm⟩
    | none =>
      rw [hm] at h
      exact searchFirst_some m rest r h

theorem contribOf_not_cs (f : SrcFile) (hcs : ¬ pyEndsWith f.filename csExt = true) :
    contribOf f = none := by
  simp [contribOf, hcs]

theorem contribOf_open_error (f : SrcFile) (e : String)
    (ho : f.openResult = Except.error e) : contribOf f = none := by
  obtain ⟨fn, fp, fo⟩ := f
  simp only at ho
  subst ho
  simp [contribOf]

theorem contribOf_read_error (f : SrcFile) (e : String)
    (ho : f.openResult = Except.ok (Except.error e)) : contribOf f = none := by
  obtain ⟨fn, fp, fo⟩ := f
  simp only at ho
  subst ho
  simp [contribOf]

theorem contribOf_content (f : SrcFile) (content : String)
    (hcs : pyEndsWith f.filename csExt = true)
    (ho : f.openResult = Except.ok (Except.ok content)) :
    contribOf f = (fileDefn content).map (fun sc => (sc.1, ⟨sc.2, f.filepath⟩)) := by
  obtain ⟨fn, fp, fo⟩ := f
  simp only at ho hcs ⊢
  subst ho
  simp only [contribOf, hcs, if_true]
  cases fileDefn content <;> rfl

theorem contribOf_some (f : SrcFile) (sec : String) (info : DefInfo)
    (h : contribOf f = some (sec, info)) :
    ∃ content clsL secL,
      f.openResult = Except.ok (Except.ok content) ∧
      CLASS_PATTERN_search content.data = some clsL ∧
      SECTION_PATTERN_search content.data = some secL ∧
      sec = String.mk secL ∧ info = ⟨String.mk clsL, f.filepath⟩ := by
  by_cases hcs : pyEndsWith f.filename csExt = true
  case neg =>
    rw [contribOf_not_cs f hcs] at h
    exact Option.noConfusion h
  case pos =>
    cases ho : f.openResult with
    | error e =>
      rw [contribOf_open_error f e ho] at h
      exact Option.noConfusion h
    | ok inner =>
      cases inner with
      | error e =>
        rw [contribOf_read_error f e ho] at h
        exact Option.noConfusion h
      | ok content =>
        rw [contribOf_content f content hcs ho] at h
        cases hd : fileDefn content with
        | none =>
          rw [hd] at h
          exact Option.noConfusion h
        | some sc =>
          obtain ⟨a, b⟩ := sc
          rw [hd] at h
          simp only [Option.map_some'] at h
          injection h with h'
          injection h' with hsec hinfo
          unfold fileDefn at hd
          cases hc : CLASS_PATTERN_search content.data with
          | none => simp only [hc] at hd; exact Option.noConfusion hd
          | some clsL =>
            simp only [hc] at hd
            cases hs2 : SECTION_PATTERN_search content.data with
            | none => simp only [hs2] at hd; exact Option.noConfusion hd
            | some secL =>
              simp only [hs2] at hd
              injection hd with hd'
              injection hd' with hA hB
              refine ⟨content, clsL, secL, rfl, hc, hs2, ?_, ?_⟩
              · rw [← hsec, ← hA]
              · rw [← hinfo, ← hB]

/-!  Lemmas about the gap-collection loop and the report format. -/

theorem missingOf_eq_map : ∀ (defs : List (String × DefInfo)) (d : DocContent),
    missingOf defs d = (gapPairs defs d).map (fun p => missingItem p.1 p.2)
  | [], _ => rfl
  | p :: rest, d => by
    rw [missingOf, gapPairs, List.filter_cons]
    by_cases h : notInDoc p.1 d = true
    · rw [if_pos h, if_pos h, List.map_cons, missingOf_eq_map rest d]
      rfl
    · rw [if_neg h, if_neg h, missingOf_eq_map rest d]
      rfl

theorem twoNl_eq : twoNl = nlStr ++ nlStr := by decide

theorem empty_append_str (s : String) : "" ++ s = s := by
  apply String.ext
  rw [String.data_append]
  exact List.nil_append s.data

theorem bullets_eq (items : List String) :
    strConcat ((items.map (fun it => bulletLit ++ it)).map (fun l => l ++ nlStr)) =
    strConcat (items.map (fun it => bulletLit ++ it ++ nlStr)) := by
  induction items with
  | nil => rfl
  | cons it rest ih =>
    simp only [List.map_cons, strConcat, ih]

theorem reportContent_eq_specReport (items : List String) :
    reportContent items = specReport items := by
  rw [specReport, specLines]
  simp only [List.map_cons]
  rw [strConcat, strConcat, strConcat, strConcat]
  rw [bullets_eq]
  rw [reportContent, twoNl_eq]
  simp [String.append_assoc, empty_append_str]

theorem mainRun_ok (files : List SrcFile) (doc : Option String) (r : MainResult)
    (h : mainRun files doc = Except.ok r) :
    ∃ defs lg, find_config_definitions files = Except.ok (defs, lg) ∧
      r.missing_items = missingOf defs (get_documented_sections doc) ∧
      r.written = (if r.missing_items.isEmpty then (none : Option (String × String))
                   else some (REPORT_FILE, reportContent r.missing_items)) ∧
      r.console = (scanningMsg :: lg ++
        (if r.missing_items.isEmpty then [readingMsg, successMsg]
         else [readingMsg, missingHdrMsg, String.intercalate nlStr r.missing_items])) := by
  unfold mainRun at h
  cases hf : find_config_definitions files with
  | error e => rw [hf] at h; cases h
  | ok dl =>
    rw [hf] at h
    obtain ⟨defs, lg⟩ := dl
    split at h
    · rename_i e heq
      exact absurd heq (by simp)
    · rename_i acc2 heq
      injection heq with heq'
      subst heq'
      split at h
      · rename_i hempty
        injection h with h'
        subst h'
        exact ⟨defs, lg, rfl, rfl, by simp [hempty], by simp [hempty]⟩
      · rename_i hempty
        injection h with h'
        subst h'
        refine ⟨defs, lg, rfl, rfl, ?_, ?_⟩
        · rw [if_neg hempty]
        · rw [if_neg hempty]

/-!  Bridge between the Boolean substring test and mathematical infix. -/

theorem isSubListOf_iff : ∀ (n hay : List Char), isSubListOf n hay = true ↔ n <:+: hay
  | n, [] => by
    rw [isSubListOf]
    exact List.isEmpty_iff.trans List.infix_nil.symm
  | n, c :: rest => by
    rw [isSubListOf, Bool.or_eq_true, List.infix_cons_iff]
    constructor
    · rintro (h1 | h2)
      · exact Or.inl (List.isPrefixOf_iff_prefix.mp h1)
      · exact Or.inr ((isSubListOf_iff n rest).mp h2)
    · rintro (h1 | h2)
      · exact Or.inl (List.isPrefixOf_iff_prefix.mpr h1)
      · exact Or.inr ((isSubListOf_iff n rest).mpr h2)

theorem optionsChars_isSuffixOf (pre : List Char) :
    optionsChars.isSuffixOf (pre ++ optionsChars) = true := by
  show (optionsChars.reverse.isPrefixOf (pre ++ optionsChars).reverse) = true
  rw [List.reverse_append]
  exact List.isPrefixOf_iff_prefix.mpr (List.prefix_append _ _)

theorem mainRun_eq_of_find (files : List SrcFile) (doc : Option String)
    (defs : List (String × DefInfo)) (lg : List String)
    (hfind : find_config_definitions files = Except.ok (defs, lg)) :
    mainRun files doc =
      (if (missingOf defs (get_documented_sections doc)).isEmpty then
        Except.ok ⟨missingOf defs (get_documented_sections doc), none,
          scanningMsg :: lg ++ [readingMsg, successMsg]⟩
      else
        Except.ok ⟨missingOf defs (get_documented_sections doc),
          some (REPORT_FILE,
            reportContent (missingOf defs (get_documented_sections doc))),
          scanningMsg :: lg ++ [readingMsg, missingHdrMsg,
            String.intercalate nlStr (missingOf defs (get_documented_sections doc))]⟩) := by
  unfold mainRun
  rw [hfind]

/-!  The claims. -/

/-- Claim C1: for every definitions mapping and every documentation text
loaded from an existing documentation file, a definition is reported as a gap
(its formatted line appears in the missing-items list) if and only if its
section name is not a substring of the documentation text; the containment
check is Python's `in` on strings — exact, case-sensitive contiguous
character containment with no normalization and no word-boundary check.  The
hypothesis `hinj` excludes formatted-line collisions between distinct
entries, which would make list membership ambiguous. -/
theorem claim1_gap_iff_not_substring (defs : List (String × DefInfo)) (sec : String)
    (info : DefInfo) (docText : String)
    (hmem : (sec, info) ∈ defs)
    (hinj : ∀ q ∈ defs, missingItem q.1 q.2 = missingItem sec info → q = (sec, info)) :
    missingItem sec info ∈ missingOf defs (get_documented_sections (some docText)) ↔
      ¬ (sec.data <:+: docText.data) := by
  rw [missingOf_eq_map]
  constructor
  · intro hin hinf
    rcases List.mem_map.mp hin with ⟨q, hq, hfmt⟩
    have hqdefs : q ∈ defs := (List.mem_filter.mp hq).1
    have hqe : q = (sec, info) := hinj q hqdefs hfmt
    have hnot := (List.mem_filter.mp hq).2
    rw [hqe] at hnot
    simp only [get_documented_sections, notInDoc, pyInStr] at hnot
    rw [(isSubListOf_iff sec.data docText.data).mpr hinf] at hnot
    simp at hnot
  · intro hninf
    apply List.mem_map.mpr
    refine ⟨(sec, info), List.mem_filter.mpr ⟨hmem, ?_⟩, rfl⟩
    simp only [get_documented_sections, notInDoc, pyInStr]
    cases hb : isSubListOf sec.data docText.data
    · rfl
    · exact absurd ((isSubListOf_iff sec.data docText.data).mp hb) hninf

/-- Witness for C1 at spec scenario 2: documentation text "Audi" does not
contain "Audio", so the "Audio" definition is reported as a gap. -/
theorem claim1_gap_iff_not_substring_witness :
    missingItem audioSection audioDefInfo ∈
      missingOf demoDefs (get_documented_sections (some demoDocAudi)) ∧
    ¬ (audioSection.data <:+: demoDocAudi.data) :=
  have hni : ¬ (audioSection.data <:+: demoDocAudi.data) := by
    rw [← isSubListOf_iff]
    decide
  ⟨(claim1_gap_iff_not_substring demoDefs audioSection audioDefInfo demoDocAudi
      (by decide) (by decide)).mpr hni, hni⟩

/-- Claim C2: for every source tree containing a `.cs` file whose text matches
both patterns (and, per C6's separate collision rule, whose captured section
name no other file of the tree also declares), the scanner's mapping contains
exactly one entry keyed by the captured section name, whose declared type
name and file path are the capture of the first type-pattern match and the
file's path; and a file on which `fileDefn` yields nothing (zero or one of
the two patterns matched) contributes no entry. -/
theorem claim2_scanner_entry (files : List SrcFile) (defs : List (String × DefInfo))
    (lg : List String) (f : SrcFile) (content : String) (clsL secL : List Char)
    (hfind : find_config_definitions files = Except.ok (defs, lg))
    (hmem : f ∈ files)
    (hcs : pyEndsWith f.filename csExt = true)
    (hopen : f.openResult = Except.ok (Except.ok content))
    (hcls : CLASS_PATTERN_search content.data = some clsL)
    (hsec : SECTION_PATTERN_search content.data = some secL)
    (huniq : ∀ g ∈ files, g ≠ f → ∀ c, contribOf g = some c → c.1 ≠ String.mk secL) :
    countKey defs (String.mk secL) = 1 ∧
    lookupD defs (String.mk secL) = some ⟨String.mk clsL, f.filepath⟩ ∧
    (∀ (g : SrcFile) (c2 : String) (acc : List (String × DefInfo) × List String),
      g.openResult = Except.ok (Except.ok c2) → fileDefn c2 = none →
      scanStep acc g = Except.ok acc) := by
  have hcf : contribOf f = some (String.mk secL, ⟨String.mk clsL, f.filepath⟩) := by
    rw [contribOf_content f content hcs hopen]
    simp [fileDefn, hcls, hsec]
  have hdefs := find_config_definitions_defs files defs lg hfind
  have hnodup := find_config_definitions_nodup files defs lg hfind
  have hmemc : (String.mk secL, (⟨String.mk clsL, f.filepath⟩ : DefInfo)) ∈
      files.filterMap contribOf := List.mem_filterMap.mpr ⟨f, hmem, hcf⟩
  have huni : ∀ c ∈ files.filterMap contribOf, c.1 = String.mk secL →
      c = (String.mk secL, (⟨String.mk clsL, f.filepath⟩ : DefInfo)) := by
    intro c hc hck
    rcases List.mem_filterMap.mp hc with ⟨g, hg, hgc⟩
    by_cases hgf : g = f
    · rw [hgf, hcf] at hgc
      injection hgc with h'
      exact h'.symm
    · exact absurd hck (huniq g hg hgf c hgc)
  have hlook : lookupD defs (String.mk secL) =
      some (⟨String.mk clsL, f.filepath⟩ : DefInfo) := by
    rw [hdefs]
    exact lookupD_buildDictFrom_uniform (String.mk secL)
      (String.mk secL, ⟨String.mk clsL, f.filepath⟩) rfl
      (files.filterMap contribOf) [] hmemc huni
  refine ⟨Nat.le_antisymm (countKey_le_one defs _ hnodup)
    (countKey_pos defs _ _ hlook), hlook, ?_⟩
  intro g c2 acc ho2 hd2
  obtain ⟨m, l2⟩ := acc
  by_cases hg : pyEndsWith g.filename csExt = true
  · simp [scanStep, hg, ho2, hd2]
  · simp [scanStep, hg]

/-- Witness for C2 at spec scenario 1's tree: the Audio file produces the
single "Audio" entry, and the class-pattern-only file contributes nothing. -/
theorem claim2_scanner_entry_witness :
    countKey demoDefs audioSection = 1 ∧
    lookupD demoDefs audioSection = some audioDefInfo ∧
    scanStep ([], []) classOnlyFile = Except.ok ([], []) := by
  have huniq : ∀ g ∈ demoTree, g ≠ audioFile →
      ∀ c, contribOf g = some c → c.1 ≠ String.mk audioSecChars := by
    intro g hg hgf c hgc
    have hcases : g = audioFile ∨ g = videoFile ∨ g = classOnlyFile ∨ g = notCsFile := by
      simpa [demoTree] using hg
    rcases hcases with rfl | rfl | rfl | rfl
    · exact absurd rfl hgf
    · rw [show contribOf videoFile = some (videoSection, videoDefInfo) from rfl] at hgc
      injection hgc with h'
      rw [← h']
      decide
    · rw [show contribOf classOnlyFile = none from rfl] at hgc
      exact Option.noConfusion hgc
    · rw [show contribOf notCsFile = none from rfl] at hgc
      exact Option.noConfusion hgc
  have big := claim2_scanner_entry demoTree demoDefs [] audioFile demoAudioContent
    audioClassChars audioSecChars rfl (by decide) rfl rfl rfl rfl huniq
  exact ⟨big.1, big.2.1, big.2.2 classOnlyFile demoClassOnlyContent ([], []) rfl rfl⟩

/-- Counterexample to C3 as stated: a failure raised by `open` itself is NOT
recovered — the `open` call sits outside the `try` block, so the exception
escapes `find_config_definitions`, the traversal stops, and no diagnostic is
printed; the same tree processes fine without the unreadable file, and the
recovery the claim promises (skip plus diagnostic plus continue) would have
produced the third value, which differs from what the code produces. -/
theorem claim3_counterexample :
    find_config_definitions [badOpenFile, audioFile] = Except.error permDeniedMsg ∧
    find_config_definitions [audioFile] =
      Except.ok ([(audioSection, audioDefInfo)], []) ∧
    (Except.error permDeniedMsg :
        Except String (List (String × DefInfo) × List String)) ≠
      Except.ok ([(audioSection, audioDefInfo)],
        [skippingMsg badOpenFile.filepath permDeniedMsg]) :=
  ⟨rfl, rfl, by decide⟩

/-- Claim C3 (amended): a failure raised while reading or decoding a candidate
file — after `open` succeeded — is recovered locally: the file contributes no
entry, the diagnostic naming the file and the underlying error is printed,
and traversal continues with the remaining files; a failure raised by `open`
itself, however, propagates and aborts the traversal. -/
theorem claim3_read_failure_recovered (m : List (String × DefInfo)) (lg : List String)
    (f : SrcFile) (rest : List SrcFile) (e : String)
    (hcs : pyEndsWith f.filename csExt = true) :
    (f.openResult = Except.ok (Except.error e) →
      findDefsFrom (m, lg) (f :: rest) =
        findDefsFrom (m, lg ++ [skippingMsg f.filepath e]) rest) ∧
    (f.openResult = Except.error e →
      findDefsFrom (m, lg) (f :: rest) = Except.error e) := by
  constructor
  · intro ho
    rw [findDefsFrom, scanStep_read_skip m lg f e hcs ho]
  · intro ho
    rw [findDefsFrom, scanStep_open_fail (m, lg) f e hcs ho]

/-- Witness for C3 (amended): a decode failure is skipped with the diagnostic
and traversal continues; an open failure aborts. -/
theorem claim3_read_failure_recovered_witness :
    findDefsFrom ([], []) [badReadFile, audioFile] =
      findDefsFrom ([], [skippingMsg badReadFile.filepath decodeErrMsg]) [audioFile] ∧
    findDefsFrom ([], []) [badOpenFile, audioFile] = Except.error permDeniedMsg :=
  ⟨(claim3_read_failure_recovered [] [] badReadFile [audioFile] decodeErrMsg rfl).1 rfl,
   (claim3_read_failure_recovered [] [] badOpenFile [audioFile] permDeniedMsg rfl).2 rfl⟩

/-- Claim C4: when the documentation file does not exist, every definition
fails the containment check (the source then holds the empty list, on which
Python's `not in` is vacuously true — observably the same as empty-string
documentation for the never-empty section names), so every definition is a
gap; in particular with exactly one scanned definition, exactly one gap is
reported and the report file is written with one checklist line. -/
theorem claim4_missing_doc (files : List SrcFile) (sec : String) (info : DefInfo)
    (lg : List String)
    (hfind : find_config_definitions files = Except.ok ([(sec, info)], lg)) :
    (∀ defs : List (String × DefInfo),
      gapPairs defs (get_documented_sections none) = defs) ∧
    mainRun files none = Except.ok ⟨[missingItem sec info],
      some (REPORT_FILE, reportContent [missingItem sec info]),
      scanningMsg :: lg ++ [readingMsg, missingHdrMsg,
        String.intercalate nlStr [missingItem sec info]]⟩ := by
  have hall : ∀ defs : List (String × DefInfo),
      gapPairs defs (get_documented_sections none) = defs := by
    intro defs
    simp [gapPairs, notInDoc, get_documented_sections]
  have hmi : missingOf [(sec, info)] (get_documented_sections none) =
      [missingItem sec info] := by
    simp [missingOf, notInDoc, get_documented_sections]
  refine ⟨hall, ?_⟩
  rw [mainRun_eq_of_find files none [(sec, info)] lg hfind, hmi]
  rw [if_neg (by simp)]

/-- Witness for C4 at spec scenario 3: one definition, no documentation file. -/
theorem claim4_missing_doc_witness :
    gapPairs demoDefs (get_documented_sections none) = demoDefs ∧
    mainRun [audioFile] none = Except.ok ⟨[missingItem audioSection audioDefInfo],
      some (REPORT_FILE, reportContent [missingItem audioSection audioDefInfo]),
      scanningMsg :: [] ++ [readingMsg, missingHdrMsg,
        String.intercalate nlStr [missingItem audioSection audioDefInfo]]⟩ :=
  ⟨(claim4_missing_doc [audioFile] audioSection audioDefInfo [] rfl).1 demoDefs,
   (claim4_missing_doc [audioFile] audioSection audioDefInfo [] rfl).2⟩

/-- Claim C5: the report file is written if and only if the run finds at least
one gap; when gaps exist the write carries the checklist content and
overwrites any prior report; when no gaps exist (including when zero files
match the `.cs` filter) nothing is written, the prior report state is
unchanged, and the success message is printed. -/
theorem claim5_report_iff_gaps (files : List SrcFile) (doc : Option String)
    (prior : Option String) (r : MainResult)
    (h : mainRun files doc = Except.ok r) :
    (r.written.isSome = true ↔ r.missing_items ≠ []) ∧
    (r.missing_items ≠ [] →
      r.written = some (REPORT_FILE, reportContent r.missing_items) ∧
      reportAfter prior r = some (reportContent r.missing_items)) ∧
    (r.missing_items = [] → r.written = none ∧ reportAfter prior r = prior) ∧
    ((∀ g ∈ files, pyEndsWith g.filename csExt = false) →
      r.missing_items = [] ∧ r.written = none ∧ successMsg ∈ r.console) := by
  rcases mainRun_ok files doc r h with ⟨defs, lg, hfind, hitems, hwritten, hconsole⟩
  by_cases he : r.missing_items.isEmpty = true
  · have hnil := List.isEmpty_iff.mp he
    rw [if_pos he] at hwritten
    rw [if_pos he] at hconsole
    refine ⟨?_, ?_, ?_, ?_⟩
    · rw [hwritten, hnil]
      simp
    · intro hne
      exact absurd hnil hne
    · intro _
      exact ⟨hwritten, by simp [reportAfter, hwritten]⟩
    · intro _
      refine ⟨hnil, hwritten, ?_⟩
      rw [hconsole]
      simp
  · have hne : r.missing_items ≠ [] := by simpa [List.isEmpty_eq_false] using he
    rw [if_neg he] at hwritten
    refine ⟨?_, ?_, ?_, ?_⟩
    · rw [hwritten]
      simp [hne]
    · intro _
      exact ⟨hwritten, by simp [reportAfter, hwritten]⟩
    · intro hnil
      exact absurd hnil hne
    · intro hnocs
      exfalso
      have hfe := findDefsFrom_no_cs files ([], []) hnocs
      rw [show find_config_definitions files = findDefsFrom ([], []) files from rfl,
        hfe] at hfind
      injection hfind with h2
      injection h2 with h2a h2b
      exact hne (by rw [hitems, ← h2a]; rfl)

/-- Witness for C5: a gap run overwrites the prior report with the checklist;
a run over a tree with no `.cs` file leaves it untouched and prints the
success message. -/
theorem claim5_report_iff_gaps_witness :
    (demoGapResult.written.isSome = true ↔ demoGapResult.missing_items ≠ []) ∧
    reportAfter (some demoPrior) demoGapResult =
      some (reportContent demoGapResult.missing_items) ∧
    demoEmptyResult.written = none ∧
    reportAfter (some demoPrior) demoEmptyResult = some demoPrior ∧
    successMsg ∈ demoEmptyResult.console :=
  have h1 := claim5_report_iff_gaps [audioFile] none (some demoPrior) demoGapResult rfl
  have h2 := claim5_report_iff_gaps [notCsFile] (some demoDocAudi) (some demoPrior)
    demoEmptyResult rfl
  ⟨h1.1, (h1.2.1 (by decide)).2, (h2.2.2.1 rfl).1, (h2.2.2.1 rfl).2,
   (h2.2.2.2 (by decide)).2.2⟩

/-- Claim C6: when two or more files declare the same section name, the final
mapping holds exactly one entry under that key, and its value (declared type
name and file path) is the contribution of the file encountered last among
them in traversal order — the later file silently overwrites the earlier. -/
theorem claim6_last_write_wins (pre post : List SrcFile) (g : SrcFile)
    (defs : List (String × DefInfo)) (lg : List String) (sec : String) (info : DefInfo)
    (hfind : find_config_definitions (pre ++ g :: post) = Except.ok (defs, lg))
    (hg : contribOf g = some (sec, info))
    (hpost : ∀ g' ∈ post, ∀ c, contribOf g' = some c → c.1 ≠ sec)
    (hearlier : ∃ g' ∈ pre, ∃ c, contribOf g' = some c ∧ c.1 = sec) :
    countKey defs sec = 1 ∧ lookupD defs sec = some info := by
  have hdefs := find_config_definitions_defs _ defs lg hfind
  have hnodup := find_config_definitions_nodup _ defs lg hfind
  rw [List.filterMap_append, List.filterMap_cons_some hg, buildDictFrom_append] at hdefs
  have hB : ∀ c ∈ post.filterMap contribOf, c.1 ≠ sec := by
    intro c hc hck
    rcases List.mem_filterMap.mp hc with ⟨g', hg', hgc⟩
    exact hpost g' hg' c hgc hck
  have hlook : lookupD defs sec = some info := by
    rw [hdefs, buildDictFrom, lookupD_buildDictFrom_no_key sec _ _ hB, lookupD_dictInsert]
    simp
  exact ⟨Nat.le_antisymm (countKey_le_one defs sec hnodup)
    (countKey_pos defs sec info hlook), hlook⟩

/-- Witness for C6 at spec scenario 4: `audioFile` and `soundFile` both
declare section "Audio"; the final mapping holds one "Audio" entry carrying
the later file's class and path. -/
theorem claim6_last_write_wins_witness :
    countKey demoDupDefs audioSection = 1 ∧
    lookupD demoDupDefs audioSection = some soundDefInfo :=
  claim6_last_write_wins [audioFile] [videoFile] soundFile demoDupDefs []
    audioSection soundDefInfo rfl rfl
    (by
      intro g' hg' c hgc hck
      have : g' = videoFile := by simpa using hg'
      subst this
      rw [show contribOf videoFile = some (videoSection, videoDefInfo) from rfl] at hgc
      injection hgc with h'
      rw [← h'] at hck
      exact absurd hck (by decide))
    ⟨audioFile, by decide, (audioSection, audioDefInfo), rfl, rfl⟩

/-- Claim C7: the pipeline is deterministic over unchanged inputs — two runs
on the same tree and documentation produce the same gap list and the same
report write, and re-running leaves the report file content exactly as after
the first run. -/
theorem claim7_idempotent (files : List SrcFile) (doc : Option String)
    (prior : Option String) (r1 r2 : MainResult)
    (h1 : mainRun files doc = Except.ok r1) (h2 : mainRun files doc = Except.ok r2) :
    r1.missing_items = r2.missing_items ∧ r1.written = r2.written ∧
    reportAfter (reportAfter prior r1) r2 = reportAfter prior r1 := by
  have hr : r1 = r2 := by
    have h12 := h1.symm.trans h2
    injection h12
  subst hr
  refine ⟨rfl, rfl, ?_⟩
  cases hw : r1.written with
  | none => simp [reportAfter, hw]
  | some pc => simp [reportAfter, hw]

/-- Witness for C7: running the one-definition no-documentation scenario twice. -/
theorem claim7_idempotent_witness :
    demoGapResult.missing_items = demoGapResult.missing_items ∧
    demoGapResult.written = demoGapResult.written ∧
    reportAfter (reportAfter (some demoPrior) demoGapResult) demoGapResult =
      reportAfter (some demoPrior) demoGapResult :=
  claim7_idempotent [audioFile] none (some demoPrior) demoGapResult demoGapResult rfl rfl

/-- Claim C8: whenever the report file is written, its name is the fixed one
and its content is exactly the specified markdown: the header line naming the
documentation file, a blank line, the fixed sentence, a blank line, then one
checklist line per gap (each line terminated by a newline); and each gap item
is the formatted line of a mapping entry failing the containment check. -/
theorem claim8_report_format (files : List SrcFile) (doc : Option String) (r : MainResult)
    (nm s : String) (defs : List (String × DefInfo)) (lg : List String)
    (hfind : find_config_definitions files = Except.ok (defs, lg))
    (h : mainRun files doc = Except.ok r)
    (hw : r.written = some (nm, s)) :
    nm = REPORT_FILE ∧ s = specReport r.missing_items ∧
    r.missing_items = (gapPairs defs (get_documented_sections doc)).map
      (fun p => missingItem p.1 p.2) := by
  rcases mainRun_ok files doc r h with ⟨defs', lg', hfind', hitems, hwritten, _⟩
  have hpair : (defs', lg') = (defs, lg) := by
    have h12 := hfind'.symm.trans hfind
    injection h12
  injection hpair with hd hl
  subst hd
  by_cases he : r.missing_items.isEmpty = true
  · rw [if_pos he] at hwritten
    rw [hwritten] at hw
    exact Option.noConfusion hw
  · rw [if_neg he] at hwritten
    rw [hwritten] at hw
    injection hw with hw'
    injection hw' with hnm hs
    refine ⟨hnm.symm, ?_, by rw [hitems, missingOf_eq_map]⟩
    rw [← hs, reportContent_eq_specReport]

/-- Witness for C8: the one-gap report of the no-documentation scenario. -/
theorem claim8_report_format_witness :
    REPORT_FILE = REPORT_FILE ∧
    reportContent [missingItem audioSection audioDefInfo] =
      specReport demoGapResult.missing_items ∧
    demoGapResult.missing_items = (gapPairs [(audioSection, audioDefInfo)]
      (get_documented_sections none)).map (fun p => missingItem p.1 p.2) :=
  claim8_report_format [audioFile] none demoGapResult REPORT_FILE
    (reportContent [missingItem audioSection audioDefInfo])
    [(audioSection, audioDefInfo)] [] rfl rfl rfl

/-- Claim C9 (implicit invariant): every entry the scanner produces has a
non-empty section name containing no double-quote character, and a non-empty
declared type name made of word characters only that ends in "Options" (so
it is at least 8 characters long) — guaranteed by the shapes of the two
regex capture groups. -/
theorem claim9_capture_invariants (files : List SrcFile) (defs : List (String × DefInfo))
    (lg : List String) (sec : String) (info : DefInfo)
    (hfind : find_config_definitions files = Except.ok (defs, lg))
    (hmem : (sec, info) ∈ defs) :
    sec.data ≠ [] ∧ sec.data.all (fun c => !(c == quoteChar)) = true ∧
    info.cls.data ≠ [] ∧ info.cls.data.all isWordChar = true ∧
    optionsChars.isSuffixOf info.cls.data = true ∧ 8 ≤ info.cls.data.length := by
  have hdefs := find_config_definitions_defs files defs lg hfind
  rw [hdefs] at hmem
  rcases mem_buildDictFrom _ _ _ hmem with hacc | hcs
  · exact absurd hacc (List.not_mem_nil _)
  rcases List.mem_filterMap.mp hcs with ⟨f, hf, hfc⟩
  rcases contribOf_some f sec info hfc with
    ⟨content, clsL, secL, _, hcls, hsec, hseceq, hinfoeq⟩
  rcases searchFirst_some sectionAt content.data secL hsec with ⟨t1, hsa⟩
  rcases sectionAt_some t1 secL hsa with ⟨hne, hq⟩
  rcases searchFirst_some classAt content.data clsL hcls with ⟨t2, hca⟩
  rcases classAt_some t2 clsL hca with ⟨⟨pre2, hpre2, hcap2⟩, hword⟩
  subst hseceq
  subst hinfoeq
  refine ⟨hne, ?_, ?_, ?_, ?_, ?_⟩
  · rw [List.all_eq_true]
    intro c hc
    cases hb : c == quoteChar
    · rfl
    · exact absurd (eq_of_beq hb) (hq c hc)
  · intro hnil
    rw [show (String.mk clsL).data = clsL from rfl, hcap2] at hnil
    rcases List.append_eq_nil.mp hnil with ⟨h1, _⟩
    exact hpre2 h1
  · rw [List.all_eq_true]
    exact hword
  · rw [show (String.mk clsL).data = clsL from rfl, hcap2]
    exact optionsChars_isSuffixOf pre2
  · rw [show (String.mk clsL).data = clsL from rfl, hcap2, List.length_append]
    have hp1 : 1 ≤ pre2.length := List.length_pos.mpr hpre2
    have h7 : optionsChars.length = 7 := rfl
    omega

/-- Witness for C9: the scanned "Audio" entry satisfies all capture-shape
invariants. -/
theorem claim9_capture_invariants_witness :
    audioSection.data ≠ [] ∧
    audioSection.data.all (fun c => !(c == quoteChar)) = true ∧
    audioDefInfo.cls.data ≠ [] ∧
    audioDefInfo.cls.data.all isWordChar = true ∧
    optionsChars.isSuffixOf audioDefInfo.cls.data = true ∧
    8 ≤ audioDefInfo.cls.data.length :=
  claim9_capture_invariants [audioFile] [(audioSection, audioDefInfo)] []
    audioSection audioDefInfo rfl (by decide)

/-- Claim C10 (implicit): the fixed file names and default scan root the spec
leaves unstated — the documentation file is "SYSTEMCONFIGURATION.md", the
default scan root is ".", and any report write targets
"config_audit_report.md"; all three are bare relative names, resolved against
the process working directory. -/
theorem claim10_fixed_names (files : List SrcFile) (doc : Option String) (r : MainResult)
    (nm s : String) (h : mainRun files doc = Except.ok r)
    (hw : r.written = some (nm, s)) :
    DOC_FILE = "SYSTEMCONFIGURATION.md" ∧ ROOT_DIR = "." ∧
    REPORT_FILE = "config_audit_report.md" ∧ nm = "config_audit_report.md" := by
  rcases mainRun_ok files doc r h with ⟨defs, lg, _, _, hwritten, _⟩
  by_cases he : r.missing_items.isEmpty = true
  · rw [if_pos he] at hwritten
    rw [hwritten] at hw
    exact Option.noConfusion hw
  · rw [if_neg he] at hwritten
    rw [hwritten] at hw
    injection hw with hw'
    injection hw' with hnm _
    exact ⟨rfl, rfl, rfl, hnm.symm⟩

/-- Witness for C10: the gap run writes under the fixed report name. -/
theorem claim10_fixed_names_witness :
    DOC_FILE = "SYSTEMCONFIGURATION.md" ∧ ROOT_DIR = "." ∧
    REPORT_FILE = "config_audit_report.md" ∧ REPORT_FILE = "config_audit_report.md" :=
  claim10_fixed_names [audioFile] none demoGapResult REPORT_FILE
    (reportContent [missingItem audioSection audioDefInfo]) rfl rfl
